import Mathlib

/-!
Verification of the mario MARC-record mapping engine (src/marc.go) against
its natural-language specification.

The Go code is shallowly embedded: every function of src/marc.go that the
claims touch is translated to a Lean definition of the same name.  Go byte
strings are modelled as Lean `String`s (record data is ASCII in all claims,
so byte indexing and character indexing coincide).  A Go slice/index
expression that can panic, and the nil-pointer dereference reached through
`getRules`, are modelled with the `GoRes` result type: `GoRes.panic` is a
runtime panic (which in the real program kills the whole run, since
`parse` runs in a goroutine with no recover), `GoRes.ok` a normal result.
Go's `(Record, error)` return of `marcToRecord` is modelled as
`Except String Record`: callers only test `err != nil`, so the partially
built record returned alongside a non-nil error is unobservable.

The external binary-record decoder (the fml library) is not part of this
repository; its accessors are modelled from the spec (section 6:
"provide field/subfield accessors by tag and code, and single-byte leader
access") and are marked `Modelled from the spec` below.
-/

namespace Mario

/-- Result of running a piece of Go code that can panic. -/
inductive GoRes (α : Type) where
  | panic : GoRes α
  | ok : α → GoRes α
  deriving DecidableEq, Repr

def GoRes.bind {α β : Type} : GoRes α → (α → GoRes β) → GoRes β
  | GoRes.panic, _ => GoRes.panic
  | GoRes.ok a, f => f a

def GoRes.map {α β : Type} (f : α → β) : GoRes α → GoRes β
  | GoRes.panic => GoRes.panic
  | GoRes.ok a => GoRes.ok (f a)

def GoRes.isOk {α : Type} : GoRes α → Bool
  | GoRes.panic => false
  | GoRes.ok _ => true

instance {ε α : Type} [DecidableEq ε] [DecidableEq α] : DecidableEq (Except ε α) := fun x y =>
  match x, y with
  | Except.error u, Except.error v => decidable_of_iff (u = v) (by simp)
  | Except.ok u, Except.ok v => decidable_of_iff (u = v) (by simp)
  | Except.error _, Except.ok _ => isFalse (by simp)
  | Except.ok _, Except.error _ => isFalse (by simp)

/-- One subfield of a MARC data field, as exposed by the external decoder
(fml `SubField`: a one-character code and a value). -/
structure SubField where
  code : String
  value : String
  deriving DecidableEq, Repr

/-- One MARC data field, as exposed by the external decoder
(fml `DataField`: tag, two indicator bytes, subfields). -/
structure DataField where
  tag : String
  indicator1 : Char
  indicator2 : Char
  subFields : List SubField
  deriving DecidableEq, Repr

/-- Modelled from the spec: a decoded record as produced by the external
fml decoder, reduced to what the mapping engine reads from it — the
control number (`fml.Record.ControlNum`), the leader type byte
(`fmlRecord.Leader.Type`) and the data fields.  (Control fields other
than the control number are not consulted by any claim.) -/
structure FmlRecord where
  controlNum : String
  leaderType : Char
  dataFields : List DataField
  deriving DecidableEq, Repr

/-- Rule from marc_rules.json; struct `Field` in the Go source. -/
structure Field where
  tag : String
  subfields : String
  bytes : String
  kind : String
  deriving DecidableEq, Repr

/-- Rule from marc_rules.json; struct `Rule` in the Go source. -/
structure Rule where
  label : String
  array : Bool
  fields : List Field
  deriving DecidableEq, Repr

/-- Struct `Contributor` of the Go source. -/
structure Contributor where
  kind : String
  value : List String
  deriving DecidableEq, Repr

/-- Struct `RelatedItem` of the Go source. -/
structure RelatedItem where
  kind : String
  value : List String
  deriving DecidableEq, Repr

/-- Struct `Link` of the Go source. -/
structure Link where
  kind : String := ""
  text : String := ""
  url : String := ""
  restrictions : String := ""
  deriving DecidableEq, Repr

/-- One holding, as built by `getHoldings` in the Go source. -/
structure Holding where
  location : String := ""
  collection : String := ""
  callNumber : String := ""
  summary : String := ""
  notes : String := ""
  format : String := ""
  deriving DecidableEq, Repr

/-- Struct `Record` of the Go source: the normalized output document.
Defaults are the Go zero values (empty string / nil slice). -/
structure Record where
  identifier : String := ""
  title : String := ""
  alternateTitles : List String := []
  creator : List String := []
  contributor : List Contributor := []
  subject : List String := []
  isbn : List String := []
  issn : List String := []
  doi : List String := []
  oclcNumber : List String := []
  lccn : String := ""
  country : String := ""
  language : List String := []
  publicationDate : String := ""
  contentType : String := ""
  callNumber : List String := []
  edition : String := ""
  imprint : List String := []
  physicalDescription : String := ""
  publicationFrequency : List String := []
  numbering : String := ""
  notes : List String := []
  contents : List String := []
  summary : List String := []
  format : List String := []
  literaryForm : String := ""
  relatedPlace : List String := []
  inBibliography : List String := []
  relatedItems : List RelatedItem := []
  source : String := ""
  sourceLink : String := ""
  links : List Link := []
  holdings : List Holding := []
  deriving DecidableEq, Repr

/-- A loaded code table (Go `map[string]string` built by `RetrieveCodelist`),
modelled as an association list. -/
abbrev CodeMap : Type := List (String × String)

/-- Go map indexing `codeMap[c]`: the zero value `""` when the key is absent. -/
def mapGet (m : CodeMap) (k : String) : String :=
  match List.find? (fun p => p.1 = k) m with
  | some p => p.2
  | none => ""

/-- Decimal digit-string parser backing `atoi`: `none` unless the characters
are one or more ASCII digits. -/
def parseDigits (ds : List Char) : Option Nat :=
  if ds.isEmpty then none
  else
    ds.foldl
      (fun acc c =>
        acc.bind (fun n =>
          if 48 ≤ c.toNat ∧ c.toNat ≤ 57 then some (n * 10 + (c.toNat - 48)) else none))
      (some 0)

/-- Go `strconv.Atoi` with the error discarded (as at both call sites in
`filter`): the parsed integer (optional sign, then digits), or 0 when the
string is not a valid integer. -/
def atoi (s : String) : Int :=
  match s.toList with
  | '-' :: ds =>
    match parseDigits ds with
    | some n => -(n : Int)
    | none => 0
  | '+' :: ds =>
    match parseDigits ds with
    | some n => (n : Int)
    | none => 0
  | ds =>
    match parseDigits ds with
    | some n => (n : Int)
    | none => 0

/-- Go `strings.Split s sep` for the one-character separator used in
`filter` (`":"`). -/
def goSplit (s : String) (sep : Char) : List String :=
  (s.toList.splitOn sep).map String.mk

/-- Go string slice expression `s[lo:hi]`: panics unless `0 ≤ lo ≤ hi ≤ len s`. -/
def goSlice (s : String) (lo hi : Int) : GoRes String :=
  if 0 ≤ lo ∧ lo ≤ hi ∧ hi ≤ (s.length : Int) then
    GoRes.ok (String.mk ((s.toList.drop lo.toNat).take (hi.toNat - lo.toNat)))
  else
    GoRes.panic

/-- Go `strings.Trim s cutset`: remove leading and trailing characters
contained in `cutset`. -/
def goTrim (s cutset : String) : String :=
  let l := s.toList.dropWhile (fun c => cutset.toList.contains c)
  String.mk ((l.reverse.dropWhile (fun c => cutset.toList.contains c)).reverse)

/-- Modelled from the spec: accessor `fmlRecord.DataField tag` of the external
decoder — every data field with the given tag, in record order. -/
def FmlRecord.dataField (rec : FmlRecord) (tag : String) : List DataField :=
  rec.dataFields.filter (fun df => df.tag = tag)

/-- Modelled from the spec: accessor `fmlRecord.Filter query` of the external
decoder.  The query string is a 3-character tag followed by the requested
subfield codes; the result has one entry per occurrence of the tag in the
record, holding the values of the requested subfields in record order
(spec 4.1: "collect every occurrence of the named tag in the record; for
each occurrence, concatenate the values of the requested subfield codes
(... in subfield order as they occur in the record)"). -/
def FmlRecord.Filter (rec : FmlRecord) (query : String) : List (List String) :=
  let tag := query.take 3
  let codes := (query.drop 3).toList.map (fun c => String.mk [c])
  (rec.dataFields.filter (fun df => df.tag = tag)).map
    (fun df => (df.subFields.filter (fun sf => codes.contains sf.code)).map
      (fun sf => sf.value))

/-- Function `stringInSlice` of the Go source. -/
def stringInSlice (a : String) : List String → Bool
  | [] => false
  | b :: rest => if b = a then true else stringInSlice a rest

/-- Function `getRules` of the Go source: linear scan for the first rule
with the given label; Go returns a nil pointer when none matches,
modelled as `none`. -/
def getRules : List Rule → String → Option Rule
  | [], _ => none
  | v :: rest, label => if v.label = label then some v else getRules rest label

/-- Body of the loop of `filter` in the Go source: space-join one
occurrence's subfield values and apply the optional byte-range
restriction `first:take` (Go `v[first:first+take]`, which panics when
out of range; the `:`-split panics when `Bytes` has no `:`). -/
def filterOne (field : Field) (f : List String) : GoRes String :=
  let v := String.intercalate " " f
  if field.bytes ≠ "" then
    match goSplit field.bytes ':' with
    | [] => GoRes.panic
    | [_] => GoRes.panic
    | a :: b :: _ =>
      let first := atoi a
      let take := atoi b
      goSlice v first (first + take)
  else
    GoRes.ok v

/-- Loop of `filter` in the Go source, accumulating `stuff`. -/
def filterAux (field : Field) : List (List String) → List String → GoRes (List String)
  | [], stuff => GoRes.ok stuff
  | f :: rest, stuff =>
    match filterOne field f with
    | GoRes.panic => GoRes.panic
    | GoRes.ok v => filterAux field rest (stuff ++ [v])

/-- Function `filter` of the Go source. -/
def filter (fmlRecord : FmlRecord) (field : Field) : GoRes (List String) :=
  filterAux field (fmlRecord.Filter (field.tag ++ field.subfields)) []

/-- Inner accumulation of `extractData` in the Go source: append each
extracted value not already present. -/
def dedupAppend (acc : List String) (vs : List String) : List String :=
  vs.foldl (fun a y => if stringInSlice y a then a else a ++ [y]) acc

/-- Loop of `extractData` in the Go source over the rule's field specs. -/
def extractDataAux (fmlRecord : FmlRecord) : List Field → List String → GoRes (List String)
  | [], acc => GoRes.ok acc
  | f :: fs, acc =>
    match filter fmlRecord f with
    | GoRes.panic => GoRes.panic
    | GoRes.ok vs => extractDataAux fmlRecord fs (dedupAppend acc vs)

/-- Function `extractData` of the Go source: union of all field specs'
values, skipping exact duplicates. -/
def extractData (rule : Rule) (fmlRecord : FmlRecord) : GoRes (List String) :=
  extractDataAux fmlRecord rule.fields []

/-- Function `applyRule` of the Go source.  When `getRules` finds no rule it
returns a nil pointer and `extractData` dereferences `rule.Fields`,
which is a nil-pointer panic at run time — modelled as `GoRes.panic`. -/
def applyRule (fmlRecord : FmlRecord) (rules : List Rule) (field : String) : GoRes (List String) :=
  match getRules rules field with
  | none => GoRes.panic
  | some recordFieldRule => extractData recordFieldRule fmlRecord

/-- Loop of `getContributors` in the Go source: one `Contributor` per field
spec whose extraction is non-empty (Go `y.Value != nil`). -/
def getContributorsAux (fmlRecord : FmlRecord) :
    List Field → List Contributor → GoRes (List Contributor)
  | [], c => GoRes.ok c
  | r :: rest, c =>
    match filter fmlRecord r with
    | GoRes.panic => GoRes.panic
    | GoRes.ok v =>
      getContributorsAux fmlRecord rest
        (if v ≠ [] then c ++ [{ kind := r.kind, value := v }] else c)

/-- Function `getContributors` of the Go source (nil rule dereference is a
panic, as in `applyRule`). -/
def getContributors (fmlRecord : FmlRecord) (rules : List Rule) (field : String) :
    GoRes (List Contributor) :=
  match getRules rules field with
  | none => GoRes.panic
  | some recordFieldRule => getContributorsAux fmlRecord recordFieldRule.fields []

/-- Loop of `getRelatedItems` in the Go source. -/
def getRelatedItemsAux (fmlRecord : FmlRecord) :
    List Field → List RelatedItem → GoRes (List RelatedItem)
  | [], c => GoRes.ok c
  | r :: rest, c =>
    match filter fmlRecord r with
    | GoRes.panic => GoRes.panic
    | GoRes.ok v =>
      getRelatedItemsAux fmlRecord rest
        (if v ≠ [] then c ++ [{ kind := r.kind, value := v }] else c)

/-- Function `getRelatedItems` of the Go source. -/
def getRelatedItems (fmlRecord : FmlRecord) (rules : List Rule) (field : String) :
    GoRes (List RelatedItem) :=
  match getRules rules field with
  | none => GoRes.panic
  | some recordFieldRule => getRelatedItemsAux fmlRecord recordFieldRule.fields []

/-- Function `literaryForm` of the Go source. -/
def literaryForm (x : List String) : String :=
  match x with
  | [] => ""
  | x0 :: _ =>
    match x0 with
    | "0" | "s" | "e" => "nonfiction"
    | _ => "fiction"

/-- Function `contentType` of the Go source: content-type label for the
leader type byte. -/
def contentType (x : Char) : String :=
  match x with
  | 'c' => "Musical score"
  | 'd' => "Musical score"
  | 'e' => "Cartographic material"
  | 'f' => "Cartographic material"
  | 'g' => "Moving image"
  | 'i' => "Sound recording"
  | 'j' => "Sound recording"
  | 'k' => "Still image"
  | 'm' => "Computer file"
  | 'o' => "Kit"
  | 'p' => "Mixed materials"
  | 'r' => "Object"
  | _ => "Text"

/-- Function `TranslateCodes` of the Go source: translate each code through
the code table, passing a code through unchanged when the looked-up name
is the empty string (which is also what a Go map lookup of an absent key
returns). -/
def TranslateCodes (recordCodes : List String) (codeMap : CodeMap) : List String :=
  recordCodes.foldl
    (fun names c =>
      let name := mapGet codeMap c
      if name ≠ "" then names ++ [name] else names ++ [c])
    []

/-- Function `subfieldValue` of the Go source: value of the first subfield
with the given code, or `""`. -/
def subfieldValue : List SubField → String → String
  | [], _ => ""
  | x :: xs, code => if x.code = code then x.value else subfieldValue xs code

/-- Function `getLinks` of the Go source: one `Link` per 856 field whose
first indicator is 4 and second indicator is 0 or 1. -/
def getLinks (fmlRecord : FmlRecord) : List Link :=
  let marc856 := fmlRecord.dataField "856"
  marc856.foldl
    (fun links f =>
      let ind1 := f.indicator1
      let ind2 := f.indicator2
      if ind1 = '4' ∧ (ind2 = '0' ∨ ind2 = '1') then
        let link : Link :=
          { kind := subfieldValue f.subFields "3"
            url := subfieldValue f.subFields "u"
            text := subfieldValue f.subFields "y"
            restrictions := subfieldValue f.subFields "z" }
        let link := if link.kind = "" then { link with kind := "unknown" } else link
        links ++ [link]
      else links)
    []

/-- Function `lookupCollection` of the Go source. -/
def lookupCollection (col : String) (loc : String) : String :=
  match col with
  | "STACK" => "Stacks"
  | "ATLCS" => "Atlas Case"
  | "AUDBK" => "Audiobooks"
  | "JRNAL" =>
    if loc = "HUM" then "Humanities Journals"
    else if loc = "SCI" then "Science Journals"
    else "Journal Collection"
  | "BRWS" => "Browsery"
  | "CNSUS" => "Census Collection"
  | "CIRCD" => "Service Desk"
  | "DETEC" => "Detective Fiction Collection"
  | "EJ" => "Electronic Journal"
  | "GIS" => "GIS Collection"
  | "GOV" => "Government Documents"
  | "GRNVL" => "Graphic Novel Collection"
  | "HDCBX" => "Harvard Depository Boxed Items"
  | "ICPSR" => "ICPSR Codebooks"
  | "IMPLS" => "Impulse Borrowing Display"
  | "LSA4" => "Journal Collection"
  | "OVRSZ" => "Oversize Materials"
  | "LMTED" => "Limited Access Collection"
  | "MAPRM" => "Map Room"
  | "MFORM" => "Microforms"
  | "MEDIA" => "Media"
  | "NCIP" => "BLC ILB Item"
  | "NEWBK" => "Science New Books Display"
  | "NOLN1" => "Noncirculating Collection 1"
  | "NOLN2" => "Noncirculating Collection 2"
  | "NOLN3" => "Noncirculating Collection 3"
  | "OCC" => "Off Campus Collection"
  | "OCCBX" => "Off Campus Collection Boxed Items"
  | "OFFCT" => "Offsite Cataloging"
  | "PAMPH" => "Pamphlet Collection"
  | "PRECT" =>
    if loc = "HUM" then "Humanities Pre-cataloged Collection"
    else if loc = "SCI" then "Science Pre-cataloged Collection"
    else "Pre-cataloged Collection"
  | "REF" => "Reference Collection"
  | "RSERV" => "Reserve Stacks"
  | "SWING" => "Basement Grammar Books"
  | "TRAVL" => "Travel Collection"
  | "UNCAT" => "Uncataloged Materials - see Librarian"
  | "UNKNW" => "Problems Materials - see Librarian"
  | "WSTM" => "Women in Science, Technology, and Medicine"
  | _ => col

/-- Function `lookupLocation` of the Go source. -/
def lookupLocation (loc : String) : String :=
  match loc with
  | "HUM" | "RBR" | "SCI" => "Hayden Library"
  | "MIT50" => "MIT Administrative Library"
  | "ARC" => "Institute Archives"
  | "ACQ" => "Institute Archives"
  | "ENG" => "Barker Library"
  | "CAT" => "Cataloging and Metadata Services"
  | "DEW" => "Dewey Library"
  | "DIR" => "Director's Office"
  | "DOC" => "Document Services"
  | "ILB" => "Interlibrary Borrowing"
  | "LSA" => "Library Storage Annex"
  | "NET" => "Internet Resource"
  | "MUS" => "Lewis Music Library"
  | "PHY" => "Physics Department Reading Room"
  | "RTC" => "Rotch Library"
  | "RVC" => "Rotch Visual Collections"
  | "SPC" => "Space Cntr: Ask library staff"
  | "OFFIC" => "Office delivery"
  | _ => loc

/-- Function `lookupFormat` of the Go source.  Note the default branch of the
switch is `"Print volume"`, and when `loc` is `"Internet Resource"` the
whole switch is skipped and the zero value `""` is returned. -/
def lookupFormat (loc : String) (format_code : String) : String :=
  if loc ≠ "Internet Resource" then
    match format_code with
    | "BOOKS" | "REGULAR" => "Print volume"
    | "ATLAS" => "Atlas"
    | "AUDIO" | "AUDTAPE" => "Audio tape"
    | "CD" => "Compact disc"
    | "CDROM" => "CD-ROM"
    | "DSKETTE" => "Diskette"
    | "DVD" => "DVD-ROM"
    | "FICHE" => "Microfiche"
    | "FOLIO" | "OVRSIZE" => "Oversized print volume"
    | "MAP" => "Map sheet"
    | "MFILM" => "Microfilm"
    | "RECORD" => "Audio record"
    | "SCORE" => "Musical score"
    | "SMALL" => "Undersized print volume"
    | "VDISC" => "Videodisc"
    | "VHS" => "VHS"
    | _ => "Print volume"
  else ""

/-- Function `getHoldings` of the Go source: one `Holding` per data field
with the given tag; format is `"Print volume"` for tag 866 and a
`lookupFormat` result otherwise.  (At both call sites the
`subfieldCodes` list is long enough for every index used, so Go's
panicking index expression is modelled with `List.getD`.) -/
def getHoldings (fmlRecord : FmlRecord) (tag : String) (subfieldCodes : List String) :
    List Holding :=
  let df := fmlRecord.dataField tag
  df.foldl
    (fun holdings f =>
      let holding : Holding :=
        { location := lookupLocation (subfieldValue f.subFields (subfieldCodes.getD 0 ""))
          collection := lookupCollection
            (subfieldValue f.subFields (subfieldCodes.getD 1 ""))
            (subfieldValue f.subFields (subfieldCodes.getD 0 ""))
          callNumber := subfieldValue f.subFields (subfieldCodes.getD 2 "")
          summary := subfieldValue f.subFields (subfieldCodes.getD 3 "")
          notes := subfieldValue f.subFields (subfieldCodes.getD 4 "") }
      let holding :=
        if tag = "866" then { holding with format := "Print volume" }
        else { holding with
               format := lookupFormat holding.location
                 (subfieldValue f.subFields (subfieldCodes.getD 5 "")) }
      holdings ++ [holding])
    []

/-- Function `marcToRecord` of the Go source: map one decoded record to a
normalized document; an absent title yields the "has no title" error. -/
def marcToRecord (fmlRecord : FmlRecord) (rules : List Rule)
    (languageCodes countryCodes : CodeMap) : GoRes (Except String Record) :=
  GoRes.bind (applyRule fmlRecord rules "oclc_number") fun oclc =>
  GoRes.bind (applyRule fmlRecord rules "lccn") fun lccn =>
  GoRes.bind (applyRule fmlRecord rules "title") fun title =>
  let r : Record :=
    { identifier := fmlRecord.controlNum
      source := "MIT Aleph"
      sourceLink := "https://library.mit.edu/item/" ++ fmlRecord.controlNum
      oclcNumber := oclc
      lccn := if lccn = [] then "" else (lccn.headD "").trim }
  match title with
  | [] => GoRes.ok (Except.error ("Record " ++ r.identifier ++ " has no title, check validity"))
  | t :: _ =>
  let r := { r with title := t }
  GoRes.bind (applyRule fmlRecord rules "alternate_titles") fun alt =>
  GoRes.bind (applyRule fmlRecord rules "creators") fun creators =>
  GoRes.bind (getContributors fmlRecord rules "contributors") fun contribs =>
  GoRes.bind (applyRule fmlRecord rules "related_place") fun relPlace =>
  GoRes.bind (getRelatedItems fmlRecord rules "related_items") fun relItems =>
  GoRes.bind (applyRule fmlRecord rules "in_bibliography") fun inBib =>
  GoRes.bind (applyRule fmlRecord rules "subjects") fun subjects =>
  GoRes.bind (applyRule fmlRecord rules "isbns") fun isbns =>
  GoRes.bind (applyRule fmlRecord rules "issns") fun issns =>
  GoRes.bind (applyRule fmlRecord rules "dois") fun dois =>
  GoRes.bind (applyRule fmlRecord rules "place_of_publication") fun country =>
  let countryVal :=
    if country = [] then ""
    else (TranslateCodes (country.set 0 (goTrim (country.headD "") " |")) countryCodes).headD ""
  GoRes.bind (applyRule fmlRecord rules "languages") fun language =>
  let language := TranslateCodes language languageCodes
  GoRes.bind (applyRule fmlRecord rules "call_numbers") fun callNumbers =>
  GoRes.bind (applyRule fmlRecord rules "edition") fun edition =>
  GoRes.bind (applyRule fmlRecord rules "imprint") fun imprint =>
  GoRes.bind (applyRule fmlRecord rules "physical_description") fun description =>
  GoRes.bind (applyRule fmlRecord rules "publication_frequency") fun pubFreq =>
  GoRes.bind (applyRule fmlRecord rules "publication_date") fun date =>
  GoRes.bind (applyRule fmlRecord rules "numbering") fun numbering =>
  GoRes.bind (applyRule fmlRecord rules "notes") fun notes =>
  GoRes.bind (applyRule fmlRecord rules "contents") fun contents =>
  GoRes.bind (applyRule fmlRecord rules "summary") fun summaryVals =>
  GoRes.bind (applyRule fmlRecord rules "literary_form") fun lf =>
  let links := getLinks fmlRecord
  let holdings0 := getHoldings fmlRecord "866" ["b", "c", "h", "a", "z"]
  let holdings :=
    if holdings0.length = 0 then getHoldings fmlRecord "852" ["b", "c", "h", "a", "z", "k"]
    else holdings0
  let format :=
    holdings.foldl
      (fun fmts h => if stringInSlice h.format fmts then fmts else fmts ++ [h.format]) []
  GoRes.ok (Except.ok
    { r with
      alternateTitles := alt
      creator := creators
      contributor := contribs
      relatedPlace := relPlace
      relatedItems := relItems
      inBibliography := inBib
      subject := subjects
      isbn := isbns
      issn := issns
      doi := dois
      country := countryVal
      language := language
      callNumber := callNumbers
      edition := if edition = [] then "" else edition.headD ""
      imprint := imprint
      physicalDescription := if description = [] then "" else description.headD ""
      publicationFrequency := pubFreq
      publicationDate := if date = [] then "" else date.headD ""
      numbering := if numbering = [] then "" else numbering.headD ""
      notes := notes
      contents := contents
      summary := summaryVals
      contentType := contentType fmlRecord.leaderType
      literaryForm := literaryForm lf
      links := links
      holdings := holdings
      format := format })

/-- Loop of `parse` in the Go source: one input per decoded record (a
decode-level error is `Except.error`); a record whose mapping fails is
logged and skipped, a successful mapping is emitted on the output
channel, and a panic inside `marcToRecord` kills the whole goroutine
(and with it the program), producing no output list at all. -/
def parse (inputs : List (Except String FmlRecord)) (rules : List Rule)
    (languageCodes countryCodes : CodeMap) : GoRes (List Record) :=
  match inputs with
  | [] => GoRes.ok []
  | i :: rest =>
    match i with
    | Except.error _ => parse rest rules languageCodes countryCodes
    | Except.ok record =>
      match marcToRecord record rules languageCodes countryCodes with
      | GoRes.panic => GoRes.panic
      | GoRes.ok (Except.error _) => parse rest rules languageCodes countryCodes
      | GoRes.ok (Except.ok r) =>
        (parse rest rules languageCodes countryCodes).map (fun out => r :: out)

/-! Specification-side definitions used to state the claims. -/

/-- Canonical first-occurrence de-duplication: keep each value at the
position of its first appearance. -/
def dedupFirst : List String → List String
  | [] => []
  | x :: xs => x :: dedupFirst (xs.filter (fun y => y ≠ x))
termination_by l => l.length
decreasing_by
  simp only [List.length_cons]
  exact Nat.lt_succ_of_le (List.length_filter_le _ _)

/-- The raw (un-deduplicated) values a rule's field specs produce, in spec
order — the same loop as `extractDataAux` but concatenating instead of
skipping duplicates. -/
def flatAux (fmlRecord : FmlRecord) : List Field → List String → GoRes (List String)
  | [], acc => GoRes.ok acc
  | f :: fs, acc =>
    match filter fmlRecord f with
    | GoRes.panic => GoRes.panic
    | GoRes.ok vs => flatAux fmlRecord fs (acc ++ vs)

/-- Raw concatenated extraction across a rule's field specs. -/
def flatData (rule : Rule) (fmlRecord : FmlRecord) : GoRes (List String) :=
  flatAux fmlRecord rule.fields []

/-- The rule labels `marcToRecord` looks up, in program order. -/
def mappedLabels : List String :=
  ["oclc_number", "lccn", "title", "alternate_titles", "creators", "contributors",
   "related_place", "related_items", "in_bibliography", "subjects", "isbns", "issns",
   "dois", "place_of_publication", "languages", "call_numbers", "edition", "imprint",
   "physical_description", "publication_frequency", "publication_date", "numbering",
   "notes", "contents", "summary", "literary_form"]

/-- A label is ready for a record when a rule carries it and none of the
rule's field extractions panics. -/
def ruleReady (rules : List Rule) (rec : FmlRecord) (lbl : String) : Bool :=
  match getRules rules lbl with
  | none => false
  | some ru => ru.fields.all (fun f => (filter rec f).isOk)

/-- Every label `marcToRecord` uses is ready (all configured, no
byte-range panic anywhere). -/
def allReady (rules : List Rule) (rec : FmlRecord) : Bool :=
  mappedLabels.all (ruleReady rules rec)

/-- The site codes `lookupLocation` lists explicitly. -/
def locationCodes : List String :=
  ["HUM", "RBR", "SCI", "MIT50", "ARC", "ACQ", "ENG", "CAT", "DEW", "DIR", "DOC",
   "ILB", "LSA", "NET", "MUS", "PHY", "RTC", "RVC", "SPC", "OFFIC"]

/-- The collection codes `lookupCollection` lists explicitly. -/
def collectionCodes : List String :=
  ["STACK", "ATLCS", "AUDBK", "JRNAL", "BRWS", "CNSUS", "CIRCD", "DETEC", "EJ",
   "GIS", "GOV", "GRNVL", "HDCBX", "ICPSR", "IMPLS", "LSA4", "OVRSZ", "LMTED",
   "MAPRM", "MFORM", "MEDIA", "NCIP", "NEWBK", "NOLN1", "NOLN2", "NOLN3", "OCC",
   "OCCBX", "OFFCT", "PAMPH", "PRECT", "REF", "RSERV", "SWING", "TRAVL", "UNCAT",
   "UNKNW", "WSTM"]

/-- The format codes `lookupFormat` lists explicitly. -/
def formatCodes : List String :=
  ["BOOKS", "REGULAR", "ATLAS", "AUDIO", "AUDTAPE", "CD", "CDROM", "DSKETTE",
   "DVD", "FICHE", "FOLIO", "OVRSIZE", "MAP", "MFILM", "RECORD", "SCORE",
   "SMALL", "VDISC", "VHS"]

/-- The leader type bytes `contentType` lists explicitly. -/
def contentCodes : List Char :=
  ['c', 'd', 'e', 'f', 'g', 'i', 'j', 'k', 'm', 'o', 'p', 'r']

/-! Concrete fixtures for witnesses and counterexamples. -/

/-- A one-field rule: `label` extracted from subfield a of `tag`. -/
def simpleRule (lbl tag : String) : Rule :=
  { label := lbl, array := false, fields := [{ tag := tag, subfields := "a", bytes := "", kind := "" }] }

/-- A complete ruleset carrying every label `marcToRecord` uses. -/
def rulesW : List Rule :=
  [simpleRule "oclc_number" "035", simpleRule "lccn" "010", simpleRule "title" "245",
   simpleRule "alternate_titles" "246", simpleRule "creators" "100",
   simpleRule "contributors" "700", simpleRule "related_place" "752",
   simpleRule "related_items" "730", simpleRule "in_bibliography" "510",
   simpleRule "subjects" "650", simpleRule "isbns" "020", simpleRule "issns" "022",
   simpleRule "dois" "024", simpleRule "place_of_publication" "044",
   simpleRule "languages" "041", simpleRule "call_numbers" "050",
   simpleRule "edition" "250", simpleRule "imprint" "260",
   simpleRule "physical_description" "300", simpleRule "publication_frequency" "310",
   simpleRule "publication_date" "264", simpleRule "numbering" "362",
   simpleRule "notes" "500", simpleRule "contents" "505", simpleRule "summary" "520",
   simpleRule "literary_form" "008"]

/-- A decoded record with no data fields at all (in particular, no title). -/
def recW : FmlRecord :=
  { controlNum := "0001", leaderType := 'a', dataFields := [] }

/-- A decoded record with a title field and one 866 holdings field. -/
def recW5 : FmlRecord :=
  { controlNum := "0001", leaderType := 'a',
    dataFields :=
      [{ tag := "245", indicator1 := '1', indicator2 := '0',
         subFields := [{ code := "a", value := "T" }] },
       { tag := "866", indicator1 := '0', indicator2 := '0',
         subFields := [{ code := "b", value := "HUM" }] }] }

/-- The document `marcToRecord` produces for `recW5` under `rulesW`. -/
def rW5 : Record :=
  { identifier := "0001", title := "T", source := "MIT Aleph",
    sourceLink := "https://library.mit.edu/item/0001", contentType := "Text",
    holdings := [{ location := "Hayden Library", format := "Print volume" }],
    format := ["Print volume"] }

/-- A two-spec subjects rule whose raw extraction yields `["a","b","a"]`. -/
def rule4 : Rule :=
  { label := "subjects", array := true,
    fields := [{ tag := "650", subfields := "a", bytes := "", kind := "" },
               { tag := "651", subfields := "a", bytes := "", kind := "" }] }

/-- A record whose 650/651 fields yield the values a, b, a in sequence. -/
def rec4 : FmlRecord :=
  { controlNum := "0002", leaderType := 'a',
    dataFields :=
      [{ tag := "650", indicator1 := ' ', indicator2 := ' ',
         subFields := [{ code := "a", value := "a" }] },
       { tag := "650", indicator1 := ' ', indicator2 := ' ',
         subFields := [{ code := "a", value := "b" }] },
       { tag := "651", indicator1 := ' ', indicator2 := ' ',
         subFields := [{ code := "a", value := "a" }] }] }

/-- A field spec whose byte range 7:4 overruns the extracted string. -/
def fieldX : Field :=
  { tag := "245", subfields := "a", bytes := "7:4", kind := "" }

/-- A record whose 245$a concatenates to the 3-character string abc. -/
def recX : FmlRecord :=
  { controlNum := "0003", leaderType := 'a',
    dataFields :=
      [{ tag := "245", indicator1 := '1', indicator2 := '0',
         subFields := [{ code := "a", value := "abc" }] }] }

/-! Basic lemmas about the embedding. -/

theorem GoRes.bind_eq_ok {α β : Type} {x : GoRes α} {f : α → GoRes β} {b : β} :
    x.bind f = GoRes.ok b ↔ ∃ a, x = GoRes.ok a ∧ f a = GoRes.ok b := by
  cases x <;> simp [GoRes.bind]

theorem GoRes.isOk_iff {α : Type} {x : GoRes α} :
    x.isOk = true ↔ ∃ a, x = GoRes.ok a := by
  cases x <;> simp [GoRes.isOk]

theorem stringInSlice_iff {a : String} {l : List String} :
    stringInSlice a l = true ↔ a ∈ l := by
  induction l with
  | nil => simp [stringInSlice]
  | cons b rest ih =>
    by_cases h : b = a
    · subst h; simp [stringInSlice]
    · have h2 : a ≠ b := fun e => h e.symm
      simp [stringInSlice, if_neg h, ih, List.mem_cons, h2]

theorem ruleReady_unpack {rules : List Rule} {rec : FmlRecord} {lbl : String}
    (h : ruleReady rules rec lbl = true) :
    ∃ ru, getRules rules lbl = some ru ∧ ∀ f ∈ ru.fields, ∃ v, filter rec f = GoRes.ok v := by
  unfold ruleReady at h
  cases hg : getRules rules lbl with
  | none => rw [hg] at h; exact absurd h (by simp)
  | some ru =>
    rw [hg] at h
    refine ⟨ru, rfl, ?_⟩
    intro f hf
    exact GoRes.isOk_iff.mp (List.all_eq_true.mp h f hf)

theorem extractDataAux_ok {rec : FmlRecord} {fs : List Field}
    (h : ∀ f ∈ fs, ∃ v, filter rec f = GoRes.ok v) (acc : List String) :
    ∃ v, extractDataAux rec fs acc = GoRes.ok v := by
  induction fs generalizing acc with
  | nil => exact ⟨acc, rfl⟩
  | cons f fs ih =>
    obtain ⟨v, hv⟩ := h f (List.mem_cons_self f fs)
    rw [extractDataAux, hv]
    exact ih (fun g hg => h g (List.mem_cons_of_mem f hg)) _

theorem applyRule_ok {rules : List Rule} {rec : FmlRecord} {lbl : String}
    (h : ruleReady rules rec lbl = true) :
    ∃ v, applyRule rec rules lbl = GoRes.ok v := by
  obtain ⟨ru, hg, hf⟩ := ruleReady_unpack h
  obtain ⟨v, hv⟩ := extractDataAux_ok hf []
  exact ⟨v, by rw [applyRule, hg]; exact hv⟩

theorem getContributorsAux_ok {rec : FmlRecord} {fs : List Field}
    (h : ∀ f ∈ fs, ∃ v, filter rec f = GoRes.ok v) (acc : List Contributor) :
    ∃ v, getContributorsAux rec fs acc = GoRes.ok v := by
  induction fs generalizing acc with
  | nil => exact ⟨acc, rfl⟩
  | cons f fs ih =>
    obtain ⟨v, hv⟩ := h f (List.mem_cons_self f fs)
    rw [getContributorsAux, hv]
    exact ih (fun g hg => h g (List.mem_cons_of_mem f hg)) _

theorem getContributors_ok {rules : List Rule} {rec : FmlRecord} {lbl : String}
    (h : ruleReady rules rec lbl = true) :
    ∃ v, getContributors rec rules lbl = GoRes.ok v := by
  obtain ⟨ru, hg, hf⟩ := ruleReady_unpack h
  obtain ⟨v, hv⟩ := getContributorsAux_ok hf []
  exact ⟨v, by rw [getContributors, hg]; exact hv⟩

theorem getRelatedItemsAux_ok {rec : FmlRecord} {fs : List Field}
    (h : ∀ f ∈ fs, ∃ v, filter rec f = GoRes.ok v) (acc : List RelatedItem) :
    ∃ v, getRelatedItemsAux rec fs acc = GoRes.ok v := by
  induction fs generalizing acc with
  | nil => exact ⟨acc, rfl⟩
  | cons f fs ih =>
    obtain ⟨v, hv⟩ := h f (List.mem_cons_self f fs)
    rw [getRelatedItemsAux, hv]
    exact ih (fun g hg => h g (List.mem_cons_of_mem f hg)) _

theorem getRelatedItems_ok {rules : List Rule} {rec : FmlRecord} {lbl : String}
    (h : ruleReady rules rec lbl = true) :
    ∃ v, getRelatedItems rec rules lbl = GoRes.ok v := by
  obtain ⟨ru, hg, hf⟩ := ruleReady_unpack h
  obtain ⟨v, hv⟩ := getRelatedItemsAux_ok hf []
  exact ⟨v, by rw [getRelatedItems, hg]; exact hv⟩

theorem allReady_label {rules : List Rule} {rec : FmlRecord} {lbl : String}
    (h : allReady rules rec = true) (hm : lbl ∈ mappedLabels) :
    ruleReady rules rec lbl = true :=
  List.all_eq_true.mp h lbl hm

/-! Lemmas about de-duplicating extraction (claim C4). -/

theorem stringInSlice_append (a : String) (l1 l2 : List String) :
    stringInSlice a (l1 ++ l2) = (stringInSlice a l1 || stringInSlice a l2) := by
  induction l1 with
  | nil => simp [stringInSlice]
  | cons b rest ih =>
    simp only [List.cons_append, stringInSlice]
    split <;> simp [ih]

theorem stringInSlice_singleton (a y : String) :
    stringInSlice a [y] = decide (y = a) := by
  simp only [stringInSlice]
  split <;> simp_all

theorem dedupAppend_append (acc vs1 vs2 : List String) :
    dedupAppend acc (vs1 ++ vs2) = dedupAppend (dedupAppend acc vs1) vs2 := by
  simp [dedupAppend, List.foldl_append]

theorem dedupAppend_eq (vs : List String) :
    ∀ acc, dedupAppend acc vs =
      acc ++ dedupFirst (vs.filter (fun y => !(stringInSlice y acc))) := by
  induction vs with
  | nil => intro acc; simp [dedupAppend, dedupFirst]
  | cons y ys ih =>
    intro acc
    by_cases h : stringInSlice y acc = true
    · have hstep : dedupAppend acc (y :: ys) = dedupAppend acc ys := by
        simp [dedupAppend, h]
      rw [hstep, ih acc, List.filter_cons_of_neg (by simp [h])]
    · have hb : stringInSlice y acc = false := by
        cases hx : stringInSlice y acc
        · rfl
        · exact absurd hx h
      have hstep : dedupAppend acc (y :: ys) = dedupAppend (acc ++ [y]) ys := by
        simp [dedupAppend, hb]
      rw [hstep, ih (acc ++ [y]), List.filter_cons_of_pos (by simp [hb])]
      rw [dedupFirst, List.filter_filter, List.append_assoc, List.singleton_append]
      congr 2
      congr 1
      apply List.filter_congr
      intro z _
      simp [stringInSlice_append, stringInSlice_singleton, Bool.not_or, eq_comm,
        Bool.and_comm]

theorem flatAux_shift (rec : FmlRecord) (fs : List Field) :
    ∀ acc, flatAux rec fs acc = (flatAux rec fs []).map (fun raw => acc ++ raw) := by
  induction fs with
  | nil => intro acc; simp [flatAux, GoRes.map]
  | cons f fs ih =>
    intro acc
    cases hf : filter rec f with
    | panic => simp [flatAux, hf, GoRes.map]
    | ok vs =>
      simp only [flatAux, hf]
      rw [ih (acc ++ vs), ih ([] ++ vs)]
      cases flatAux rec fs [] <;> simp [GoRes.map]

theorem extractDataAux_eq (rec : FmlRecord) (fs : List Field) :
    ∀ acc, extractDataAux rec fs acc = (flatAux rec fs []).map (dedupAppend acc) := by
  induction fs with
  | nil => intro acc; simp [extractDataAux, flatAux, GoRes.map, dedupAppend]
  | cons f fs ih =>
    intro acc
    cases hf : filter rec f with
    | panic => simp [extractDataAux, flatAux, hf, GoRes.map]
    | ok vs =>
      simp only [extractDataAux, flatAux, hf]
      rw [ih (dedupAppend acc vs), flatAux_shift rec fs ([] ++ vs)]
      cases flatAux rec fs [] <;> simp [GoRes.map, dedupAppend_append]

theorem extractData_eq_dedup (rule : Rule) (rec : FmlRecord) :
    extractData rule rec = (flatData rule rec).map dedupFirst := by
  rw [extractData, flatData, extractDataAux_eq]
  cases flatAux rec rule.fields [] with
  | panic => simp [GoRes.map]
  | ok raw =>
    simp only [GoRes.map, GoRes.ok.injEq]
    rw [dedupAppend_eq, List.nil_append]
    congr 1
    apply List.filter_eq_self.mpr
    intro z _
    simp [stringInSlice]

theorem mem_dedupFirst (l : List String) (x : String) : x ∈ dedupFirst l ↔ x ∈ l := by
  match l with
  | [] => simp [dedupFirst]
  | y :: ys =>
    rw [dedupFirst]
    have ih := mem_dedupFirst (ys.filter (fun z => decide (z ≠ y))) x
    rw [List.mem_cons, List.mem_cons, ih, List.mem_filter]
    by_cases hxy : x = y
    · subst hxy; simp
    · simp [hxy]
termination_by l.length
decreasing_by
  simp only [List.length_cons]
  exact Nat.lt_succ_of_le (List.length_filter_le _ _)

theorem dedupFirst_nodup (l : List String) : (dedupFirst l).Nodup := by
  match l with
  | [] => simp [dedupFirst]
  | y :: ys =>
    rw [dedupFirst]
    refine List.nodup_cons.mpr ⟨?_, dedupFirst_nodup (ys.filter (fun z => decide (z ≠ y)))⟩
    intro hmem
    rw [mem_dedupFirst, List.mem_filter] at hmem
    simp at hmem
termination_by l.length
decreasing_by
  simp only [List.length_cons]
  exact Nat.lt_succ_of_le (List.length_filter_le _ _)

theorem dedupFirst_sublist (l : List String) : List.Sublist (dedupFirst l) l := by
  match l with
  | [] => simp [dedupFirst]
  | y :: ys =>
    rw [dedupFirst]
    exact List.Sublist.cons₂ y
      ((dedupFirst_sublist (ys.filter (fun z => decide (z ≠ y)))).trans
        (List.filter_sublist ys))
termination_by l.length
decreasing_by
  simp only [List.length_cons]
  exact Nat.lt_succ_of_le (List.length_filter_le _ _)

/-! Lemmas about code translation (claims C7, C10). -/

theorem translate_foldl (m : CodeMap) (codes : List String) :
    ∀ acc,
      codes.foldl
        (fun names c =>
          let name := mapGet m c
          if name ≠ "" then names ++ [name] else names ++ [c])
        acc =
      acc ++ codes.map (fun c => if mapGet m c ≠ "" then mapGet m c else c) := by
  induction codes with
  | nil => intro acc; simp
  | cons c cs ih =>
    intro acc
    simp only [List.foldl_cons, List.map_cons]
    by_cases h : mapGet m c ≠ ""
    · rw [if_pos h, ih (acc ++ [mapGet m c]), if_pos h, List.append_assoc,
        List.singleton_append]
    · rw [if_neg h, ih (acc ++ [c]), if_neg h, List.append_assoc,
        List.singleton_append]

theorem TranslateCodes_eq_map (codes : List String) (m : CodeMap) :
    TranslateCodes codes m =
      codes.map (fun c => if mapGet m c ≠ "" then mapGet m c else c) := by
  simpa [TranslateCodes] using translate_foldl m codes []

theorem getD_map_lt (f : String → String) (l : List String) :
    ∀ i, i < l.length → (l.map f).getD i "" = f (l.getD i "") := by
  induction l with
  | nil => intro i h; simp at h
  | cons a as ih =>
    intro i h
    cases i with
    | zero => simp
    | succ j =>
      simp only [List.map_cons, List.getD_cons_succ]
      exact ih j (by simpa using h)

/-! Lemmas about the lookup tables (claim C6). -/

theorem lookupLocation_passthrough (x : String) (h : x ∉ locationCodes) :
    lookupLocation x = x := by
  simp only [lookupLocation]
  split <;> try rfl
  all_goals (exfalso; apply h; subst_vars; decide)

theorem lookupCollection_passthrough (x loc : String) (h : x ∉ collectionCodes) :
    lookupCollection x loc = x := by
  simp only [lookupCollection]
  split <;> try rfl
  all_goals (exfalso; apply h; subst_vars; decide)

theorem lookupFormat_default (loc x : String) (h : x ∉ formatCodes) :
    lookupFormat loc x = if loc = "Internet Resource" then "" else "Print volume" := by
  by_cases hl : loc = "Internet Resource"
  · simp [lookupFormat, hl]
  · rw [if_neg hl]
    simp only [lookupFormat, if_pos (show loc ≠ "Internet Resource" from hl)]
    split <;> try rfl
    all_goals (exfalso; apply h; subst_vars; decide)

/-! Claim theorems. -/

/-- C2: the claim says a label with no matching Rule must fail the run at
startup validation and never be discovered per-record.  The code has no
startup validation: `getRules` returns a nil pointer, and the per-record
call path `applyRule → extractData` dereferences it, so the missing label
is discovered as a panic during mapping of the first record that uses it. -/
theorem C2_missing_label_panics_per_record (rules : List Rule) (lbl : String)
    (rec : FmlRecord) (h : getRules rules lbl = none) :
    applyRule rec rules lbl = GoRes.panic := by
  simp [applyRule, h]

theorem C2_missing_label_panics_per_record_witness :
    getRules ([] : List Rule) "title" = none ∧
      applyRule recW ([] : List Rule) "title" = GoRes.panic :=
  ⟨rfl, C2_missing_label_panics_per_record [] "title" recW rfl⟩

/-- C3: the claim says an out-of-range byte restriction must raise a
field-extraction error and never panic the whole run.  The code ignores
the `strconv.Atoi` errors and slices unchecked: on the field spec with
byte range 7:4 applied to a record whose 245$a value is the 3-character
string abc, `filter` panics (Go slice bounds out of range), and the panic
in the parse goroutine kills the run. -/
theorem C3_byte_range_panics : filter recX fieldX = GoRes.panic := by decide

/-- C6 (amended): the location and collection lookup tables map a code
absent from the table to itself unchanged, but the format lookup does
not: it maps any code absent from its table to "Print volume" when the
location is not "Internet Resource", and maps every code to "" when the
location is "Internet Resource". -/
theorem C6_lookup_tables :
    (∀ x, x ∉ locationCodes → lookupLocation x = x) ∧
    (∀ x loc, x ∉ collectionCodes → lookupCollection x loc = x) ∧
    (∀ loc x, x ∉ formatCodes →
      lookupFormat loc x = if loc = "Internet Resource" then "" else "Print volume") :=
  ⟨fun x h => lookupLocation_passthrough x h,
   fun x loc h => lookupCollection_passthrough x loc h,
   fun loc x h => lookupFormat_default loc x h⟩

theorem C6_lookup_tables_witness :
    lookupLocation "ZZZ" = "ZZZ" ∧ lookupCollection "ZZZ" "HUM" = "ZZZ" ∧
      lookupFormat "Hayden Library" "ZZZ" =
        (if ("Hayden Library" : String) = "Internet Resource" then "" else "Print volume") :=
  ⟨C6_lookup_tables.1 "ZZZ" (by decide), C6_lookup_tables.2.1 "ZZZ" "HUM" (by decide),
   C6_lookup_tables.2.2 "Hayden Library" "ZZZ" (by decide)⟩

/-- C6 counterexample: the claim as stated says `lookupFormat loc x = x`
for any code `x` absent from the format table; the code XYZ is absent yet
maps to "Print volume". -/
theorem C6_format_not_passthrough :
    "XYZ" ∉ formatCodes ∧ lookupFormat "Hayden Library" "XYZ" ≠ "XYZ" := by decide

/-- C7: `TranslateCodes` returns exactly one output per input code, in
order: the output has the same length, its i-th element is the looked-up
name when that is non-empty and the input code unchanged otherwise, and
translate(["eng","xyz"], {"eng":"English"}) = ["English","xyz"]. -/
theorem C7_translate_total :
    (∀ (codes : List String) (m : CodeMap),
      (TranslateCodes codes m).length = codes.length ∧
      ∀ i, i < codes.length →
        (TranslateCodes codes m).getD i "" =
          (if mapGet m (codes.getD i "") ≠ "" then mapGet m (codes.getD i "")
           else codes.getD i "")) ∧
    TranslateCodes ["eng", "xyz"] [("eng", "English")] = ["English", "xyz"] := by
  refine ⟨fun codes m => ?_, by decide⟩
  rw [TranslateCodes_eq_map]
  exact ⟨List.length_map codes _, fun i hi => getD_map_lt _ codes i hi⟩

theorem C7_translate_total_witness :
    (TranslateCodes ["eng", "xyz"] [("eng", "English")]).length = 2 ∧
    (TranslateCodes ["eng", "xyz"] [("eng", "English")]).getD 1 "" =
      (if mapGet [("eng", "English")] ((["eng", "xyz"] : List String).getD 1 "") ≠ ""
       then mapGet [("eng", "English")] ((["eng", "xyz"] : List String).getD 1 "")
       else (["eng", "xyz"] : List String).getD 1 "") :=
  ⟨(C7_translate_total.1 ["eng", "xyz"] [("eng", "English")]).1,
   (C7_translate_total.1 ["eng", "xyz"] [("eng", "English")]).2 1 (by decide)⟩

/-- C9: the content-type mapping is total over all 256 leader byte values —
the twelve listed codes map to their labels and every other byte maps to
"Text". -/
theorem C9_content_type_total :
    (contentType 'c' = "Musical score" ∧ contentType 'd' = "Musical score" ∧
     contentType 'e' = "Cartographic material" ∧ contentType 'f' = "Cartographic material" ∧
     contentType 'g' = "Moving image" ∧ contentType 'i' = "Sound recording" ∧
     contentType 'j' = "Sound recording" ∧ contentType 'k' = "Still image" ∧
     contentType 'm' = "Computer file" ∧ contentType 'o' = "Kit" ∧
     contentType 'p' = "Mixed materials" ∧ contentType 'r' = "Object") ∧
    ∀ b : Nat, b < 256 → Char.ofNat b ∉ contentCodes → contentType (Char.ofNat b) = "Text" := by
  refine ⟨by decide, ?_⟩
  set_option maxRecDepth 8192 in decide

theorem C9_content_type_total_witness :
    contentType (Char.ofNat 97) = "Text" :=
  C9_content_type_total.2 97 (by decide) (by decide)

/-- C10: `TranslateCodes` distinguishes table entries only by the looked-up
name being non-empty: a code whose lookup is empty (absent, or present
with an empty name) is passed through unchanged, and the empty string can
appear in the output only if it was an input code. -/
theorem C10_empty_name_passthrough :
    (∀ (m : CodeMap) (c : String) (codes : List String), mapGet m c = "" →
      TranslateCodes (c :: codes) m = c :: TranslateCodes codes m) ∧
    (∀ (m : CodeMap) (codes : List String) (v : String),
      v ∈ TranslateCodes codes m → v = "" → v ∈ codes) ∧
    TranslateCodes ["eng"] [("eng", "")] = ["eng"] := by
  refine ⟨?_, ?_, by decide⟩
  · intro m c codes h
    rw [TranslateCodes_eq_map, TranslateCodes_eq_map, List.map_cons]
    simp [h]
  · intro m codes v hv hve
    subst hve
    rw [TranslateCodes_eq_map] at hv
    obtain ⟨c, hc, he⟩ := List.mem_map.mp hv
    by_cases h : mapGet m c = ""
    · rw [if_neg (by simp [h])] at he
      exact he ▸ hc
    · rw [if_pos h] at he
      exact absurd he h

theorem C10_empty_name_passthrough_witness :
    TranslateCodes ["eng"] [("eng", "")] = "eng" :: TranslateCodes [] [("eng", "")] :=
  C10_empty_name_passthrough.1 [("eng", "")] "eng" [] (by decide)

/-- C4: the values extracted across all field specs of a rule are unioned
with exact-string de-duplication preserving first-seen order — whenever
`extractData` succeeds, its result is the first-occurrence dedup of the
raw concatenated spec values (so it has no duplicates, is a subsequence
of the raw values, and keeps exactly the raw values); and the dedup of
["a","b","a"] is ["a","b"]. -/
theorem C4_extract_dedup :
    (∀ (rule : Rule) (rec : FmlRecord) (l : List String),
      extractData rule rec = GoRes.ok l →
      ∃ raw, flatData rule rec = GoRes.ok raw ∧ l = dedupFirst raw ∧ l.Nodup ∧
        List.Sublist l raw ∧ (∀ v, v ∈ l ↔ v ∈ raw)) ∧
    dedupFirst ["a", "b", "a"] = ["a", "b"] := by
  refine ⟨?_, by simp [dedupFirst]⟩
  intro rule rec l h
  rw [extractData_eq_dedup] at h
  cases hf : flatData rule rec with
  | panic => rw [hf] at h; exact absurd h (by simp [GoRes.map])
  | ok raw =>
    rw [hf] at h
    simp only [GoRes.map, GoRes.ok.injEq] at h
    subst h
    exact ⟨raw, rfl, rfl, dedupFirst_nodup raw, dedupFirst_sublist raw,
      fun v => mem_dedupFirst raw v⟩

theorem C4_extract_dedup_witness :
    extractData rule4 rec4 = GoRes.ok ["a", "b"] ∧
    ∃ raw, flatData rule4 rec4 = GoRes.ok raw ∧ ["a", "b"] = dedupFirst raw ∧
      (["a", "b"] : List String).Nodup ∧ List.Sublist ["a", "b"] raw ∧
      (∀ v, v ∈ (["a", "b"] : List String) ↔ v ∈ raw) :=
  ⟨by decide, C4_extract_dedup.1 rule4 rec4 ["a", "b"] (by decide)⟩

theorem getLinks_foldl (l : List DataField) :
    ∀ acc,
      l.foldl
        (fun links f =>
          let ind1 := f.indicator1
          let ind2 := f.indicator2
          if ind1 = '4' ∧ (ind2 = '0' ∨ ind2 = '1') then
            let link : Link :=
              { kind := subfieldValue f.subFields "3"
                url := subfieldValue f.subFields "u"
                text := subfieldValue f.subFields "y"
                restrictions := subfieldValue f.subFields "z" }
            let link := if link.kind = "" then { link with kind := "unknown" } else link
            links ++ [link]
          else links)
        acc =
      acc ++
        (l.filter
          (fun f => decide (f.indicator1 = '4' ∧ (f.indicator2 = '0' ∨ f.indicator2 = '1')))).map
          (fun f =>
            { kind := if subfieldValue f.subFields "3" = "" then "unknown"
                      else subfieldValue f.subFields "3"
              url := subfieldValue f.subFields "u"
              text := subfieldValue f.subFields "y"
              restrictions := subfieldValue f.subFields "z" }) := by
  induction l with
  | nil => intro acc; simp
  | cons f fs ih =>
    intro acc
    simp only [List.foldl_cons]
    by_cases hc : f.indicator1 = '4' ∧ (f.indicator2 = '0' ∨ f.indicator2 = '1')
    · rw [if_pos hc, ih, List.filter_cons_of_pos (by simpa using hc), List.map_cons]
      by_cases hk : subfieldValue f.subFields "3" = ""
      · simp [hk, List.append_assoc]
      · simp [hk, List.append_assoc]
    · rw [if_neg hc, ih, List.filter_cons_of_neg (by simpa using hc)]

/-- C8: the document links are exactly one entry per 856 field whose first
indicator is 4 and second indicator is 0 or 1, in record order, with
kind, URL, display text and restriction note taken from subfields
3, u, y, z, and kind defaulting to "unknown" when subfield 3 is absent
or empty. -/
theorem C8_links (rec : FmlRecord) :
    getLinks rec =
      ((rec.dataField "856").filter
        (fun f => decide (f.indicator1 = '4' ∧ (f.indicator2 = '0' ∨ f.indicator2 = '1')))).map
        (fun f =>
          { kind := if subfieldValue f.subFields "3" = "" then "unknown"
                    else subfieldValue f.subFields "3"
            url := subfieldValue f.subFields "u"
            text := subfieldValue f.subFields "y"
            restrictions := subfieldValue f.subFields "z" }) := by
  simpa [getLinks] using getLinks_foldl (rec.dataField "856") []

theorem parse_skip (rules : List Rule) (lc cc : CodeMap) (rec : FmlRecord) (m : String)
    (hrec : marcToRecord rec rules lc cc = GoRes.ok (Except.error m)) :
    ∀ pre post,
      parse (pre ++ Except.ok rec :: post) rules lc cc = parse (pre ++ post) rules lc cc := by
  intro pre post
  induction pre with
  | nil => simp only [List.nil_append, parse, hrec]
  | cons i rest ih =>
    cases i with
    | error d =>
      simp only [List.cons_append, parse, List.append_eq]
      exact ih
    | ok rec2 =>
      simp only [List.cons_append, parse, List.append_eq]
      cases marcToRecord rec2 rules lc cc with
      | panic => rfl
      | ok res => cases res <;> simp [ih]

/-- C5: whenever `marcToRecord` succeeds, the document's holdings come from
the 866 family alone when that family yields at least one holding, and
from the 852 family exactly when the 866 family yields none. -/
theorem C5_holdings_fallback (rules : List Rule) (rec : FmlRecord) (lc cc : CodeMap)
    (r : Record) (h : marcToRecord rec rules lc cc = GoRes.ok (Except.ok r)) :
    (getHoldings rec "866" ["b", "c", "h", "a", "z"] ≠ [] →
      r.holdings = getHoldings rec "866" ["b", "c", "h", "a", "z"]) ∧
    (getHoldings rec "866" ["b", "c", "h", "a", "z"] = [] →
      r.holdings = getHoldings rec "852" ["b", "c", "h", "a", "z", "k"]) := by
  simp only [marcToRecord, GoRes.bind_eq_ok] at h
  obtain ⟨oclc, -, lccn, -, title, -, h⟩ := h
  cases title with
  | nil => simp at h
  | cons t ts =>
    simp only [GoRes.bind_eq_ok] at h
    obtain ⟨alt, -, creators, -, contribs, -, relPlace, -, relItems, -, inBib, -, subjects, -,
      isbns, -, issns, -, dois, -, country, -, language, -, callNumbers, -, edition, -,
      imprint, -, description, -, pubFreq, -, date, -, numbering, -, notes, -, contents, -,
      summaryVals, -, lf, -, hfin⟩ := h
    simp only [GoRes.ok.injEq, Except.ok.injEq] at hfin
    subst hfin
    constructor
    · intro h866
      have hlen : ¬((getHoldings rec "866" ["b", "c", "h", "a", "z"]).length = 0) := by
        simpa [List.length_eq_zero] using h866
      simp [hlen]
    · intro h866
      simp [h866]

/-- C1: when every label the mapper uses is configured and no extraction
panics, a record whose title rule yields no values makes `marcToRecord`
return the "has no title" error and the record is never emitted by
`parse`; and a missing title is the only extraction outcome that aborts
the record — whenever the title rule yields a value, mapping succeeds,
with the other absent fields merely left at their zero values (shown
here for lccn, edition and country). -/
theorem C1_missing_title_only_abort (rules : List Rule) (rec : FmlRecord) (lc cc : CodeMap)
    (hready : allReady rules rec = true) :
    (applyRule rec rules "title" = GoRes.ok [] →
      marcToRecord rec rules lc cc =
        GoRes.ok (Except.error
          ("Record " ++ rec.controlNum ++ " has no title, check validity")) ∧
      ∀ pre post,
        parse (pre ++ Except.ok rec :: post) rules lc cc = parse (pre ++ post) rules lc cc) ∧
    (∀ t ts, applyRule rec rules "title" = GoRes.ok (t :: ts) →
      ∃ r, marcToRecord rec rules lc cc = GoRes.ok (Except.ok r) ∧
        (applyRule rec rules "lccn" = GoRes.ok [] → r.lccn = "") ∧
        (applyRule rec rules "edition" = GoRes.ok [] → r.edition = "") ∧
        (applyRule rec rules "place_of_publication" = GoRes.ok [] → r.country = "")) := by
  have hr : ∀ lbl, lbl ∈ mappedLabels → ruleReady rules rec lbl = true :=
    fun lbl h => allReady_label hready h
  obtain ⟨voclc, eoclc⟩ := applyRule_ok (hr "oclc_number" (by decide))
  obtain ⟨vlccn, elccn⟩ := applyRule_ok (hr "lccn" (by decide))
  obtain ⟨valt, ealt⟩ := applyRule_ok (hr "alternate_titles" (by decide))
  obtain ⟨vcre, ecre⟩ := applyRule_ok (hr "creators" (by decide))
  obtain ⟨vcon, econ⟩ := getContributors_ok (hr "contributors" (by decide))
  obtain ⟨vrp, erp⟩ := applyRule_ok (hr "related_place" (by decide))
  obtain ⟨vri, eri⟩ := getRelatedItems_ok (hr "related_items" (by decide))
  obtain ⟨vib, eib⟩ := applyRule_ok (hr "in_bibliography" (by decide))
  obtain ⟨vsub, esub⟩ := applyRule_ok (hr "subjects" (by decide))
  obtain ⟨visbn, eisbn⟩ := applyRule_ok (hr "isbns" (by decide))
  obtain ⟨vissn, eissn⟩ := applyRule_ok (hr "issns" (by decide))
  obtain ⟨vdoi, edoi⟩ := applyRule_ok (hr "dois" (by decide))
  obtain ⟨vpop, epop⟩ := applyRule_ok (hr "place_of_publication" (by decide))
  obtain ⟨vlang, elang⟩ := applyRule_ok (hr "languages" (by decide))
  obtain ⟨vcall, ecall⟩ := applyRule_ok (hr "call_numbers" (by decide))
  obtain ⟨ved, eed⟩ := applyRule_ok (hr "edition" (by decide))
  obtain ⟨vimp, eimp⟩ := applyRule_ok (hr "imprint" (by decide))
  obtain ⟨vphy, ephy⟩ := applyRule_ok (hr "physical_description" (by decide))
  obtain ⟨vpf, epf⟩ := applyRule_ok (hr "publication_frequency" (by decide))
  obtain ⟨vpd, epd⟩ := applyRule_ok (hr "publication_date" (by decide))
  obtain ⟨vnum, enumb⟩ := applyRule_ok (hr "numbering" (by decide))
  obtain ⟨vnot, enot⟩ := applyRule_ok (hr "notes" (by decide))
  obtain ⟨vcnt, ecnt⟩ := applyRule_ok (hr "contents" (by decide))
  obtain ⟨vsum, esum⟩ := applyRule_ok (hr "summary" (by decide))
  obtain ⟨vlf, elf⟩ := applyRule_ok (hr "literary_form" (by decide))
  constructor
  · intro htitle
    have hm : marcToRecord rec rules lc cc =
        GoRes.ok (Except.error
          ("Record " ++ rec.controlNum ++ " has no title, check validity")) := by
      simp only [marcToRecord, eoclc, elccn, htitle, GoRes.bind]
    exact ⟨hm, parse_skip rules lc cc rec _ hm⟩
  · intro t ts htitle
    apply Exists.intro
    refine ⟨?_, ?_, ?_, ?_⟩
    · simp only [marcToRecord, eoclc, elccn, htitle, ealt, ecre, econ, erp, eri, eib, esub,
        eisbn, eissn, edoi, epop, elang, ecall, eed, eimp, ephy, epf, epd, enumb, enot,
        ecnt, esum, elf, GoRes.bind]
      rfl
    · intro h0
      rw [elccn] at h0
      simp only [GoRes.ok.injEq] at h0
      subst h0
      simp
    · intro h0
      rw [eed] at h0
      simp only [GoRes.ok.injEq] at h0
      subst h0
      simp
    · intro h0
      rw [epop] at h0
      simp only [GoRes.ok.injEq] at h0
      subst h0
      simp

theorem C1_missing_title_only_abort_witness :
    allReady rulesW recW = true ∧
    marcToRecord recW rulesW [] [] =
      GoRes.ok (Except.error
        ("Record " ++ recW.controlNum ++ " has no title, check validity")) ∧
    parse ([] ++ Except.ok recW :: []) rulesW [] [] = parse ([] ++ []) rulesW [] [] :=
  ⟨by decide,
   ((C1_missing_title_only_abort rulesW recW [] [] (by decide)).1 (by decide)).1,
   ((C1_missing_title_only_abort rulesW recW [] [] (by decide)).1 (by decide)).2 [] []⟩

theorem C5_holdings_fallback_witness :
    marcToRecord recW5 rulesW [] [] = GoRes.ok (Except.ok rW5) ∧
    rW5.holdings = getHoldings recW5 "866" ["b", "c", "h", "a", "z"] :=
  ⟨by decide, (C5_holdings_fallback rulesW recW5 [] [] rW5 (by decide)).1 (by decide)⟩

end Mario
